import Mathlib

set_option maxRecDepth 10000

/-!
Shallow embedding of the AURORA energy-analytics core (`src/api/main.py`):
the price forecaster `forecast_price` and the greedy storage-arbitrage
optimizer `optimize_storage`, together with the theorems that settle the
specification claims about them.

Modelling conventions:
* Python floats are embedded as exact rationals (`ℚ`); pandas timestamps and
  timedeltas as integer seconds since the epoch (`ℤ`), so 15 minutes = 900 and
  one hour = 3600.
* The two pieces of the source that have no exact rational meaning are passed
  in as function parameters: `gen` abstracts `np.random.default_rng(seed)
  .normal(0, std, size)` (the i-th sample as a function of seed, std and i),
  and `sqrtQ` abstracts the square root taken inside pandas' rolling `.std()`.
  Every theorem below is quantified over them, so nothing depends on their
  concrete values.
* `HTTPException(400, "Not enough price rows …")` is embedded as the
  `ApiError.insufficientData` error of an `Except` result.
-/

/-- A historical price observation: one row of `price.csv` restricted to the
columns the core reads (`ts`, `price_per_mwh`, `zone`). -/
structure PriceObs where
  ts : ℤ
  price_per_mwh : ℚ
  zone : String
  deriving DecidableEq, Inhabited

/-- One forecast point of the returned series: `{"ts", "p10", "p50", "p90"}`.
The ISO string produced by `t.isoformat()` is kept as the underlying epoch
time, which `isoformat` encodes injectively and monotonically. -/
structure ForecastPoint where
  ts : ℤ
  p10 : ℚ
  p50 : ℚ
  p90 : ℚ
  deriving DecidableEq, Inhabited

/-- The value returned by `forecast_price`: `{"zone": zone, "points": out}`. -/
structure ForecastResult where
  zone : String
  points : List ForecastPoint
  deriving DecidableEq, Inhabited

/-- The only error kind of the core: fewer than 32 price rows for the zone
(`HTTPException(400, "Not enough price rows (need at least 32).")`). -/
inductive ApiError where
  | insufficientData
  deriving DecidableEq, Inhabited

/-- One entry of the optimizer's `actions` list:
`{"t": t, "action": …, "mw": round(power,3), "price": round(price,2)}`. -/
structure DispatchAction where
  t : ℕ
  action : String
  mw : ℚ
  price : ℚ
  deriving DecidableEq, Inhabited

/-- The mutable state of the optimizer's simulation loop: `soc`, the growing
`actions` list, and the running `pnl`. -/
structure SimState where
  soc : ℚ
  actions : List DispatchAction
  pnl : ℚ
  deriving DecidableEq, Inhabited

/-- A collapsed action window:
`{"type", "start", "end", "avg_mw"}` (`end` is spelt `endTs`, `end` being a
reserved word). -/
structure ActionWindow where
  type : String
  start : ℤ
  endTs : ℤ
  avg_mw : ℚ
  deriving DecidableEq, Inhabited

/-- The value returned by `optimize_storage` (the fixed `"note"` string is
omitted). -/
structure OptimizeResult where
  expected_pnl_gbp : ℚ
  actions : List ActionWindow
  deriving DecidableEq, Inhabited

/-- The request body of `optimize_storage` after the `body.get(…, default)`
extractions of lines 90–97; the field defaults are the source's defaults. -/
structure OptimizeBody where
  capacity_mwh : ℚ := 2
  power_mw : ℚ := 1
  min_soc : ℚ := 1/10
  max_soc : ℚ := 9/10
  eta_in : ℚ := 19/20
  eta_out : ℚ := 19/20
  zone : String := "Z1"
  horizon : ℕ := 96
  deriving DecidableEq, Inhabited

deriving instance DecidableEq for Except

/-- Mean of a list of rationals (`Series.mean()` over the rolling window). -/
def listMean (l : List ℚ) : ℚ := l.sum / l.length

/-- Population variance (`ddof=0`) of a list of rationals; pandas'
`.std(ddof=0)` is `sqrtQ` of this. -/
def listVarPop (l : List ℚ) : ℚ :=
  (l.map (fun x => (x - listMean l) ^ 2)).sum / l.length

/-- Python's `round(x, d)` on our rational embedding: round to `d` decimal
places (ties are immaterial to every claim below). -/
def roundTo (d : ℕ) (x : ℚ) : ℚ := ((round (x * 10 ^ d) : ℤ) : ℚ) / 10 ^ d

/-- `np.min` over a (nonempty in every use) price array. -/
def listMin (l : List ℚ) : ℚ := l.foldr min (l.headD 0)

/-- `np.max` over a (nonempty in every use) price array. -/
def listMax (l : List ℚ) : ℚ := l.foldr max (l.headD 0)

instance : DecidableRel (fun a b : PriceObs => a.ts ≤ b.ts) :=
  fun a b => inferInstanceAs (Decidable (a.ts ≤ b.ts))

instance : IsTotal PriceObs (fun a b => a.ts ≤ b.ts) :=
  ⟨fun a b => Int.le_total a.ts b.ts⟩

instance : IsTrans PriceObs (fun a b => a.ts ≤ b.ts) :=
  ⟨fun _ _ _ h h' => le_trans h h'⟩

/-- `df.sort_values("ts")`: sort the observations by timestamp. -/
def sortByTs (l : List PriceObs) : List PriceObs :=
  List.insertionSort (fun a b => a.ts ≤ b.ts) l

/-- Lines 63–64: the history filtered to the requested zone and sorted by
timestamp. -/
def zoneHistory (history : List PriceObs) (zone : String) : List PriceObs :=
  sortByTs (history.filter (fun r => r.zone == zone))

/-- Line 68: `last_ts = df["ts"].iloc[-1]`. -/
def lastTsOf (df : List PriceObs) : ℤ := (df.reverse.headD default).ts

/-- Lines 69–71: the inferred step, `df["ts"].iloc[-1] - df["ts"].iloc[-2]`,
replaced by the 15-minute default (900 s) when that delta is zero. -/
def inferredStep (df : List PriceObs) : ℤ :=
  let step := (df.reverse.headD default).ts - ((df.reverse.drop 1).headD default).ts
  if step = 0 then 900 else step

/-- Lines 67–81 of `forecast_price` applied to the sorted zone history `df`:
rolling(96, min_periods=1) mean/std at the last index, `horizon` future
timestamps at the inferred step, seeded noise, and the clamped p10/p50/p90
bands. -/
def forecastPoints (gen : ℕ → ℚ → ℕ → ℚ) (sqrtQ : ℚ → ℚ)
    (df : List PriceObs) (horizon : ℕ) : List ForecastPoint :=
  let last_ts := lastTsOf df
  let step := inferredStep df
  let prices := df.map (fun r => r.price_per_mwh)
  let window := prices.drop (prices.length - 96)
  let base := listMean window
  let vol := sqrtQ (listVarPop window)
  (List.range horizon).map (fun i =>
    let noise := gen 42 (max vol (1/100)) i
    let p50 := max 0 (base + noise)
    { ts := last_ts + ((i : ℤ) + 1) * step
      p10 := max 0 (p50 - (7/10) * max vol 1)
      p50 := p50
      p90 := p50 + (7/10) * max vol 1 })

/-- `GET /forecast/price` (lines 60–82): filter to the zone, fail with
`insufficientData` when fewer than 32 rows remain, otherwise return the
forecast series. `gen` abstracts `np.random.default_rng(42).normal`, and the
constant seed 42 is applied here, fresh on every call. -/
def forecast_price (gen : ℕ → ℚ → ℕ → ℚ) (sqrtQ : ℚ → ℚ)
    (history : List PriceObs) (horizon : ℕ) (zone : String) :
    Except ApiError ForecastResult :=
  let df := zoneHistory history zone
  if df.length < 32 then .error .insufficientData
  else .ok { zone := zone, points := forecastPoints gen sqrtQ df horizon }

/-- Line 112: `rank = (prices[t] - prices.min()) / (prices.ptp() + 1e-6)`. -/
def rankOf (prices : List ℚ) (t : ℕ) : ℚ :=
  (prices.getD t 0 - listMin prices) / (listMax prices - listMin prices + 1/1000000)

/-- One iteration of the simulation loop (lines 109–126): charge when the
price rank is in the bottom 30% and there is headroom, else discharge when it
is in the top 30% and there is stored energy, else do nothing. -/
def simStep (pmax min_s max_s eta_i eta_o step_h : ℚ)
    (prices : List ℚ) (t : ℕ) (st : SimState) : SimState :=
  let price := prices.getD t 0
  let rank := rankOf prices t
  if rank < 3/10 ∧ st.soc < max_s then
    let power := min pmax ((max_s - st.soc) / eta_i / step_h)
    let e := power * step_h
    { soc := st.soc + e * eta_i
      actions := st.actions ++
        [{ t := t, action := "charge", mw := roundTo 3 power, price := roundTo 2 price }]
      pnl := st.pnl - e * price }
  else if rank > 7/10 ∧ st.soc > min_s then
    let power := min pmax ((st.soc - min_s) / step_h)
    let e := power * step_h
    { soc := st.soc - e
      actions := st.actions ++
        [{ t := t, action := "discharge", mw := roundTo 3 power, price := roundTo 2 price }]
      pnl := st.pnl + e * price * eta_o }
  else st

/-- The simulation loop after `n` steps, started from
`soc = min_s, actions = [], pnl = 0.0` (lines 104–106). -/
def runSim (pmax min_s max_s eta_i eta_o step_h : ℚ)
    (prices : List ℚ) (n : ℕ) : SimState :=
  (List.range n).foldl
    (fun st t => simStep pmax min_s max_s eta_i eta_o step_h prices t st)
    { soc := min_s, actions := [], pnl := 0 }

/-- The sequence of `soc` values the simulation loop passes through: the value
before the first step and after each of the `n` steps. -/
def socTrace (pmax min_s max_s eta_i eta_o step_h : ℚ)
    (prices : List ℚ) (n : ℕ) : List ℚ :=
  (List.range (n + 1)).map
    (fun k => (runSim pmax min_s max_s eta_i eta_o step_h prices k).soc)

/-- Maximal runs of consecutive same-`action` entries: the grouping performed
by the nested `while` loops of lines 132–146. -/
def groupRuns : List DispatchAction → List (List DispatchAction)
  | [] => []
  | a :: rest =>
    (a :: rest.takeWhile (fun b => b.action == a.action)) ::
      groupRuns (rest.dropWhile (fun b => b.action == a.action))
termination_by l => l.length
decreasing_by
  simp only [List.length_cons]
  exact Nat.lt_succ_of_le (List.dropWhile_sublist _).length_le

/-- Lines 129–146: collapse the action list into windows, each carrying the
run's kind, the timestamps of its first and last action (`ts_of`), and the
rounded mean of the recorded `mw` values. -/
def mkWindows (points : List ℤ) (actions : List DispatchAction) : List ActionWindow :=
  (groupRuns actions).map (fun run =>
    { type := (run.headD default).action
      start := points.getD (run.headD default).t 0
      endTs := points.getD (run.getLastD default).t 0
      avg_mw := roundTo 2 ((run.map (fun a => a.mw)).sum / ((max run.length 1 : ℕ) : ℚ)) })

/-- The final simulation state of one optimize call on forecast `f`, using the
battery parameters extracted from `body` (lines 90–95, 100, 104–126):
`min_s`/`max_s` are the fractions times capacity, the price path is the p50
series, and the loop runs over its whole length. -/
def optimizeFinal (step_h : ℚ) (body : OptimizeBody) (f : ForecastResult) : SimState :=
  let prices := f.points.map (fun p => p.p50)
  runSim body.power_mw (body.min_soc * body.capacity_mwh)
    (body.max_soc * body.capacity_mwh) body.eta_in body.eta_out step_h
    prices prices.length

/-- The full collapsed window list of one optimize call, before the `[:5]`
truncation of line 149. -/
def optimizeWindows (step_h : ℚ) (body : OptimizeBody) (f : ForecastResult) : List ActionWindow :=
  mkWindows (f.points.map (fun p => p.ts)) (optimizeFinal step_h body f).actions

/-- `POST /optimize/storage` with the per-step duration `step_h` kept as a
parameter (the source hardcodes it; see `optimize_storage`): run the forecast,
propagate its error unchanged, else simulate, collapse into windows, keep the
first 5, and report `round(pnl/1000, 2)`. -/
def optimize_storage_withStep (step_h : ℚ) (gen : ℕ → ℚ → ℕ → ℚ) (sqrtQ : ℚ → ℚ)
    (history : List PriceObs) (body : OptimizeBody) : Except ApiError OptimizeResult :=
  match forecast_price gen sqrtQ history body.horizon body.zone with
  | .error e => .error e
  | .ok f =>
    .ok { expected_pnl_gbp := roundTo 2 ((optimizeFinal step_h body f).pnl / 1000)
          actions := (optimizeWindows step_h body f).take 5 }

/-- `POST /optimize/storage` (lines 84–150). Line 107 fixes
`step_h = 0.25  # 15-minute steps` as a constant, independent of the forecast
cadence. -/
def optimize_storage (gen : ℕ → ℚ → ℕ → ℚ) (sqrtQ : ℚ → ℚ)
    (history : List PriceObs) (body : OptimizeBody) : Except ApiError OptimizeResult :=
  optimize_storage_withStep (1/4) gen sqrtQ history body

/-- Variant of `optimize_storage` following the spec's words instead of the
source, for the refinement claim about `step_hours`: "generalize to
`cadence_duration / 1 hour`", i.e. `step_h` is the inferred step of the zone
history divided by 3600 seconds. -/
def optimize_storage_specStep (gen : ℕ → ℚ → ℕ → ℚ) (sqrtQ : ℚ → ℚ)
    (history : List PriceObs) (body : OptimizeBody) : Except ApiError OptimizeResult :=
  optimize_storage_withStep ((inferredStep (zoneHistory history body.zone) : ℚ) / 3600)
    gen sqrtQ history body

/-- A concrete noise generator (identically zero samples) used to instantiate
the abstract `gen` parameter in witnesses and counterexamples. -/
def gen0 : ℕ → ℚ → ℕ → ℚ := fun _ _ _ => 0

/-- A concrete square-root stand-in (identically zero, the exact value on the
zero variances arising below) used to instantiate `sqrtQ` in witnesses and
counterexamples. -/
def sqrt0 : ℚ → ℚ := fun _ => 0

/-- A 32-row history for zone Z1, all at timestamp 0 and price 50. -/
def hist32 : List PriceObs := List.replicate 32 { ts := 0, price_per_mwh := 50, zone := "Z1" }

/-- A 32-row history for zone Z1 at a two-second cadence (so the inferred
step is 2 s, far from the 15-minute default), constant price 50. -/
def hist32h : List PriceObs :=
  [{ ts := 0, price_per_mwh := 50, zone := "Z1" },
  { ts := 2, price_per_mwh := 50, zone := "Z1" },
  { ts := 4, price_per_mwh := 50, zone := "Z1" },
  { ts := 6, price_per_mwh := 50, zone := "Z1" },
  { ts := 8, price_per_mwh := 50, zone := "Z1" },
  { ts := 10, price_per_mwh := 50, zone := "Z1" },
  { ts := 12, price_per_mwh := 50, zone := "Z1" },
  { ts := 14, price_per_mwh := 50, zone := "Z1" },
  { ts := 16, price_per_mwh := 50, zone := "Z1" },
  { ts := 18, price_per_mwh := 50, zone := "Z1" },
  { ts := 20, price_per_mwh := 50, zone := "Z1" },
  { ts := 22, price_per_mwh := 50, zone := "Z1" },
  { ts := 24, price_per_mwh := 50, zone := "Z1" },
  { ts := 26, price_per_mwh := 50, zone := "Z1" },
  { ts := 28, price_per_mwh := 50, zone := "Z1" },
  { ts := 30, price_per_mwh := 50, zone := "Z1" },
  { ts := 32, price_per_mwh := 50, zone := "Z1" },
  { ts := 34, price_per_mwh := 50, zone := "Z1" },
  { ts := 36, price_per_mwh := 50, zone := "Z1" },
  { ts := 38, price_per_mwh := 50, zone := "Z1" },
  { ts := 40, price_per_mwh := 50, zone := "Z1" },
  { ts := 42, price_per_mwh := 50, zone := "Z1" },
  { ts := 44, price_per_mwh := 50, zone := "Z1" },
  { ts := 46, price_per_mwh := 50, zone := "Z1" },
  { ts := 48, price_per_mwh := 50, zone := "Z1" },
  { ts := 50, price_per_mwh := 50, zone := "Z1" },
  { ts := 52, price_per_mwh := 50, zone := "Z1" },
  { ts := 54, price_per_mwh := 50, zone := "Z1" },
  { ts := 56, price_per_mwh := 50, zone := "Z1" },
  { ts := 58, price_per_mwh := 50, zone := "Z1" },
  { ts := 60, price_per_mwh := 50, zone := "Z1" },
  { ts := 62, price_per_mwh := 50, zone := "Z1" } ]

/-- Sorting does not change the number of rows: the zone history has the
length of the filtered history. -/
lemma zoneHistory_length (history : List PriceObs) (zone : String) :
    (zoneHistory history zone).length = (history.filter (fun r => r.zone == zone)).length := by
  simp [zoneHistory, sortByTs, List.length_insertionSort]

/-- On at least 32 zone rows, `forecast_price` succeeds with the forecast
series built from the sorted zone history. -/
lemma forecast_price_ok (gen : ℕ → ℚ → ℕ → ℚ) (sqrtQ : ℚ → ℚ)
    (history : List PriceObs) (horizon : ℕ) (zone : String)
    (h32 : ¬ (zoneHistory history zone).length < 32) :
    forecast_price gen sqrtQ history horizon zone =
      .ok { zone := zone, points := forecastPoints gen sqrtQ (zoneHistory history zone) horizon } := by
  simp [forecast_price, h32]

/-- C7: `forecast` is deterministic: two calls with identical history, zone
and horizon (and the same abstract noise source and square root, which the
source fixes by freshly seeding `np.random.default_rng(42)` on every call)
return identical results. -/
theorem spec_C7_forecast_deterministic (gen : ℕ → ℚ → ℕ → ℚ) (sqrtQ : ℚ → ℚ)
    (h1 h2 : List PriceObs) (n1 n2 : ℕ) (z1 z2 : String)
    (hh : h1 = h2) (hn : n1 = n2) (hz : z1 = z2) :
    forecast_price gen sqrtQ h1 n1 z1 = forecast_price gen sqrtQ h2 n2 z2 := by
  rw [hh, hn, hz]

/-- Witness for C7 at a concrete repeated call. -/
theorem spec_C7_witness :
    ([] : List PriceObs) = [] ∧ (1 : ℕ) = 1 ∧ "Z1" = "Z1" ∧
      forecast_price gen0 sqrt0 [] 1 "Z1" = forecast_price gen0 sqrt0 [] 1 "Z1" :=
  ⟨rfl, rfl, rfl, spec_C7_forecast_deterministic gen0 sqrt0 [] [] 1 1 "Z1" "Z1" rfl rfl rfl⟩

/-- C3: `forecast` fails with `InsufficientData` exactly when the history
filtered to the requested zone has fewer than 32 rows; with 32 or more it
returns a full result; and `optimize` propagates a forecast error unchanged. -/
theorem spec_C3_insufficient_data (gen : ℕ → ℚ → ℕ → ℚ) (sqrtQ : ℚ → ℚ)
    (history : List PriceObs) (horizon : ℕ) (zone : String) (body : OptimizeBody) :
    (forecast_price gen sqrtQ history horizon zone = .error .insufficientData ↔
      (history.filter (fun r => r.zone == zone)).length < 32) ∧
    (32 ≤ (history.filter (fun r => r.zone == zone)).length →
      ∃ f, forecast_price gen sqrtQ history horizon zone = .ok f) ∧
    (∀ e, forecast_price gen sqrtQ history body.horizon body.zone = .error e →
      optimize_storage gen sqrtQ history body = .error e) := by
  refine ⟨?_, ?_, ?_⟩
  · rw [← zoneHistory_length]
    constructor
    · intro h
      by_contra hlen
      rw [forecast_price_ok gen sqrtQ history horizon zone hlen] at h
      exact absurd h (by simp)
    · intro hlen
      simp [forecast_price, hlen]
  · intro h32
    have hlen : ¬ (zoneHistory history zone).length < 32 := by
      rw [zoneHistory_length]; omega
    exact ⟨_, forecast_price_ok gen sqrtQ history horizon zone hlen⟩
  · intro e he
    unfold optimize_storage optimize_storage_withStep
    rw [he]

/-- Witness for C3 on the empty history: zero zone rows, and the optimizer
surfaces the same `insufficientData` error. -/
theorem spec_C3_witness :
    (([] : List PriceObs).filter (fun r => r.zone == "Z1")).length < 32 ∧
      optimize_storage gen0 sqrt0 [] {} = .error .insufficientData :=
  ⟨by decide,
    (spec_C3_insufficient_data gen0 sqrt0 [] 96 "Z1" {}).2.2 .insufficientData
      (by with_unfolding_all decide)⟩

/-- C4: every point of a successfully returned forecast satisfies
`0 ≤ p10 ≤ p50 ≤ p90`. -/
theorem spec_C4_band_ordering (gen : ℕ → ℚ → ℕ → ℚ) (sqrtQ : ℚ → ℚ)
    (history : List PriceObs) (horizon : ℕ) (zone : String) (f : ForecastResult)
    (hf : forecast_price gen sqrtQ history horizon zone = .ok f) :
    ∀ pt ∈ f.points,
      0 ≤ pt.p10 ∧ pt.p10 ≤ pt.p50 ∧ pt.p50 ≤ pt.p90 ∧ 0 ≤ pt.p50 ∧ 0 ≤ pt.p90 := by
  have hpts : f.points = forecastPoints gen sqrtQ (zoneHistory history zone) horizon := by
    by_cases hlen : (zoneHistory history zone).length < 32
    · rw [forecast_price] at hf
      simp only [hlen, if_pos] at hf
      exact absurd hf (by simp)
    · rw [forecast_price_ok gen sqrtQ history horizon zone hlen] at hf
      have := Except.ok.inj hf
      rw [← this]
  intro pt hpt
  rw [hpts] at hpt
  simp only [forecastPoints, List.mem_map, List.mem_range] at hpt
  obtain ⟨i, _, rfl⟩ := hpt
  set vol := sqrtQ (listVarPop (((zoneHistory history zone).map
    (fun r => r.price_per_mwh)).drop
      (((zoneHistory history zone).map (fun r => r.price_per_mwh)).length - 96))) with hvol
  set base := listMean (((zoneHistory history zone).map
    (fun r => r.price_per_mwh)).drop
      (((zoneHistory history zone).map (fun r => r.price_per_mwh)).length - 96)) with hbase
  have hs : 0 ≤ (7/10 : ℚ) * max vol 1 := by
    have h1 : (0 : ℚ) ≤ max vol 1 := le_trans zero_le_one (le_max_right _ _)
    positivity
  have hp50 : (0 : ℚ) ≤ max 0 (base + gen 42 (max vol (1/100)) i) := le_max_left _ _
  refine ⟨le_max_left _ _, ?_, ?_, hp50, ?_⟩
  · exact max_le hp50 (by linarith [sub_le_self (max 0 (base + gen 42 (max vol (1/100)) i)) hs])
  · exact le_add_of_nonneg_right hs
  · exact add_nonneg hp50 hs

/-- The concrete forecast produced by `gen0`/`sqrt0` on `hist32` at horizon 1,
used by the C4 witness. -/
def forecastF4 : ForecastResult :=
  { zone := "Z1", points := [{ ts := 900, p10 := 493/10, p50 := 50, p90 := 507/10 }] }

/-- Witness for C4 on a concrete 32-row history and its concrete forecast. -/
theorem spec_C4_witness :
    forecast_price gen0 sqrt0 hist32 1 "Z1" = .ok forecastF4 ∧
      { ts := 900, p10 := 493/10, p50 := 50, p90 := 507/10 : ForecastPoint } ∈ forecastF4.points ∧
      (0 : ℚ) ≤ (493/10 : ℚ) ∧ (493/10 : ℚ) ≤ 50 ∧ (50 : ℚ) ≤ 507/10 := by
  have h : forecast_price gen0 sqrt0 hist32 1 "Z1" = .ok forecastF4 := by
    with_unfolding_all decide
  have hm : { ts := 900, p10 := 493/10, p50 := 50, p90 := 507/10 : ForecastPoint } ∈ forecastF4.points :=
    List.mem_singleton.mpr rfl
  have := spec_C4_band_ordering gen0 sqrt0 hist32 1 "Z1" forecastF4 h _ hm
  exact ⟨h, hm, this.1, this.2.1, this.2.2.1⟩

/-- Battery body used to exhibit the constant `step_h`: large power bound and
unit efficiencies, so the emitted power is the headroom term, which depends on
`step_h`. -/
def bodyC2 : OptimizeBody := { power_mw := 100, eta_in := 1, eta_out := 1, horizon := 1 }

/-- Helper for the Except-level shape of a successful optimize call. -/
lemma optimize_withStep_ok (step_h : ℚ) (gen : ℕ → ℚ → ℕ → ℚ) (sqrtQ : ℚ → ℚ)
    (history : List PriceObs) (body : OptimizeBody) (f : ForecastResult)
    (hf : forecast_price gen sqrtQ history body.horizon body.zone = .ok f) :
    optimize_storage_withStep step_h gen sqrtQ history body =
      .ok { expected_pnl_gbp := roundTo 2 ((optimizeFinal step_h body f).pnl / 1000)
            actions := (optimizeWindows step_h body f).take 5 } := by
  unfold optimize_storage_withStep
  rw [hf]

/-- The concrete forecast on `hist32h` at horizon 1. -/
def forecastF2 : ForecastResult :=
  { zone := "Z1", points := [{ ts := 64, p10 := 493/10, p50 := 50, p90 := 507/10 }] }

/-- Concrete evaluation of the forecast on the two-second-cadence history. -/
lemma forecastF2_eval : forecast_price gen0 sqrt0 hist32h 1 "Z1" = .ok forecastF2 := by
  with_unfolding_all decide

/-- The inferred step of the two-second-cadence history is 2 seconds. -/
lemma inferredStep_hist32h : inferredStep (zoneHistory hist32h "Z1") = 2 := by
  with_unfolding_all decide

/-- Counterexample to C2: on a history whose inferred cadence is 2 seconds,
the optimizer does not behave as it would with
`step_hours = cadence_duration / 1 hour`; it keeps using the constant 0.25
(the code's single charge action reports 6.4 MW where a cadence-derived step
would report 100 MW, and the rounded profits differ). -/
theorem spec_C2_counterexample :
    inferredStep (zoneHistory hist32h "Z1") = 2 ∧
      optimize_storage gen0 sqrt0 hist32h bodyC2 ≠
        optimize_storage_specStep gen0 sqrt0 hist32h bodyC2 := by
  refine ⟨inferredStep_hist32h, ?_⟩
  rw [optimize_storage,
    optimize_withStep_ok (1/4) gen0 sqrt0 hist32h bodyC2 forecastF2 forecastF2_eval,
    optimize_storage_specStep, show bodyC2.zone = "Z1" from rfl, inferredStep_hist32h,
    optimize_withStep_ok _ gen0 sqrt0 hist32h bodyC2 forecastF2 forecastF2_eval]
  with_unfolding_all decide

/-- C2 amended: `step_hours` in `optimize` is the fixed constant 1/4 (0.25),
independent of the forecast cadence; it agrees with `cadence_duration / 1 hour`
exactly when the inferred step is the 15-minute default. -/
theorem spec_C2_amended (gen : ℕ → ℚ → ℕ → ℚ) (sqrtQ : ℚ → ℚ)
    (history : List PriceObs) (body : OptimizeBody) :
    optimize_storage gen sqrtQ history body =
      optimize_storage_withStep (1/4) gen sqrtQ history body ∧
    (inferredStep (zoneHistory history body.zone) = 900 →
      optimize_storage_specStep gen sqrtQ history body =
        optimize_storage gen sqrtQ history body) := by
  refine ⟨rfl, ?_⟩
  intro h
  unfold optimize_storage_specStep optimize_storage
  rw [h]
  norm_num

/-- Witness for the amended C2 on a history whose duplicate last timestamps
select the 900-second default step. -/
theorem spec_C2_witness :
    inferredStep (zoneHistory hist32 "Z1") = 900 ∧
      optimize_storage_specStep gen0 sqrt0 hist32 {} = optimize_storage gen0 sqrt0 hist32 {} := by
  have h : inferredStep (zoneHistory hist32 "Z1") = 900 := by with_unfolding_all decide
  exact ⟨h, (spec_C2_amended gen0 sqrt0 hist32 {}).2 h⟩

/-- Counterexample to C9: with the default battery config and the forecast
p50 path `[0, 100]`, the loop charges then discharges, so the sequence of
`soc` values is `[1/5, 7/16, 1/5]`: neither nondecreasing nor nonincreasing,
hence not monotone. -/
theorem spec_C9_counterexample :
    socTrace 1 (1/5) (9/5) (19/20) (19/20) (1/4) [0, 100] 2 = [1/5, 7/16, 1/5] ∧
      ¬ List.Chain' (fun a b => a ≤ b) (socTrace 1 (1/5) (9/5) (19/20) (19/20) (1/4) [0, 100] 2) ∧
      ¬ List.Chain' (fun a b => b ≤ a) (socTrace 1 (1/5) (9/5) (19/20) (19/20) (1/4) [0, 100] 2) := by
  have htr : socTrace 1 (1/5) (9/5) (19/20) (19/20) (1/4) [0, 100] 2 = [1/5, 7/16, 1/5] := by
    with_unfolding_all decide
  refine ⟨htr, ?_, ?_⟩ <;> rw [htr] <;> intro h <;>
    rcases h with - | ⟨h1, h⟩ <;> rcases h with - | ⟨h2, -⟩ <;> norm_num at h1 h2

/-- Unfolding the simulation loop once at the end. -/
lemma runSim_succ (pmax min_s max_s eta_i eta_o step_h : ℚ) (prices : List ℚ) (n : ℕ) :
    runSim pmax min_s max_s eta_i eta_o step_h prices (n + 1) =
      simStep pmax min_s max_s eta_i eta_o step_h prices n
        (runSim pmax min_s max_s eta_i eta_o step_h prices n) := by
  unfold runSim
  rw [List.range_succ, List.foldl_append]
  rfl

/-- One simulation step keeps `soc` within `[min_s, max_s]` when it starts
there, for positive power bound, charge efficiency and step duration. -/
lemma simStep_soc_bounds (pmax min_s max_s eta_i eta_o step_h : ℚ)
    (prices : List ℚ) (t : ℕ) (st : SimState)
    (hp : 0 < pmax) (hei : 0 < eta_i) (hsh : 0 < step_h)
    (h1 : min_s ≤ st.soc) (h2 : st.soc ≤ max_s) :
    min_s ≤ (simStep pmax min_s max_s eta_i eta_o step_h prices t st).soc ∧
      (simStep pmax min_s max_s eta_i eta_o step_h prices t st).soc ≤ max_s := by
  simp only [simStep]
  split_ifs with hc hd
  · have hX : 0 ≤ (max_s - st.soc) / eta_i / step_h :=
      div_nonneg (div_nonneg (by linarith [hc.2]) hei.le) hsh.le
    have h0 : 0 ≤ min pmax ((max_s - st.soc) / eta_i / step_h) := le_min hp.le hX
    constructor
    · have : 0 ≤ min pmax ((max_s - st.soc) / eta_i / step_h) * step_h * eta_i :=
        mul_nonneg (mul_nonneg h0 hsh.le) hei.le
      dsimp only
      linarith
    · have key : min pmax ((max_s - st.soc) / eta_i / step_h) * step_h * eta_i ≤
          max_s - st.soc := by
        have hle : min pmax ((max_s - st.soc) / eta_i / step_h) ≤
            (max_s - st.soc) / eta_i / step_h := min_le_right _ _
        have heq : (max_s - st.soc) / eta_i / step_h * step_h * eta_i = max_s - st.soc := by
          field_simp
          ring
        calc min pmax ((max_s - st.soc) / eta_i / step_h) * step_h * eta_i
            ≤ (max_s - st.soc) / eta_i / step_h * step_h * eta_i :=
              mul_le_mul_of_nonneg_right (mul_le_mul_of_nonneg_right hle hsh.le) hei.le
          _ = max_s - st.soc := heq
      dsimp only
      linarith
  · have hY : 0 ≤ (st.soc - min_s) / step_h := div_nonneg (by linarith [hd.2]) hsh.le
    have h0 : 0 ≤ min pmax ((st.soc - min_s) / step_h) := le_min hp.le hY
    constructor
    · have key : min pmax ((st.soc - min_s) / step_h) * step_h ≤ st.soc - min_s := by
        have hle : min pmax ((st.soc - min_s) / step_h) ≤ (st.soc - min_s) / step_h :=
          min_le_right _ _
        have heq : (st.soc - min_s) / step_h * step_h = st.soc - min_s := by
          field_simp
        calc min pmax ((st.soc - min_s) / step_h) * step_h
            ≤ (st.soc - min_s) / step_h * step_h := mul_le_mul_of_nonneg_right hle hsh.le
          _ = st.soc - min_s := heq
      dsimp only
      linarith
    · have : 0 ≤ min pmax ((st.soc - min_s) / step_h) * step_h := mul_nonneg h0 hsh.le
      dsimp only
      linarith
  · exact ⟨h1, h2⟩

/-- C1: under the stated battery preconditions (bounds, in energy units, with
`min_s < max_s`, positive power bound, efficiencies in (0,1]), the simulated
`soc` of the optimize loop (`step_h = 1/4`) stays within `[min_s, max_s]` at
every step, for every price path. -/
theorem spec_C1_soc_bounds (pmax min_s max_s eta_i eta_o : ℚ) (prices : List ℚ)
    (hms : min_s < max_s) (hp : 0 < pmax) (hei : 0 < eta_i) (hei1 : eta_i ≤ 1)
    (heo : 0 < eta_o) (heo1 : eta_o ≤ 1) :
    ∀ k, min_s ≤ (runSim pmax min_s max_s eta_i eta_o (1/4) prices k).soc ∧
      (runSim pmax min_s max_s eta_i eta_o (1/4) prices k).soc ≤ max_s := by
  intro k
  induction k with
  | zero => exact ⟨le_refl _, hms.le⟩
  | succ n ih =>
    rw [runSim_succ]
    exact simStep_soc_bounds pmax min_s max_s eta_i eta_o (1/4) prices n _
      hp hei (by norm_num) ih.1 ih.2

/-- Witness for C1 with the default battery config on a short price path. -/
theorem spec_C1_witness :
    ((1:ℚ)/5 < 9/5 ∧ (0:ℚ) < 1 ∧ (0:ℚ) < 19/20 ∧ (19:ℚ)/20 ≤ 1) ∧
      (1:ℚ)/5 ≤ (runSim 1 (1/5) (9/5) (19/20) (19/20) (1/4) [0, 100] 2).soc ∧
      (runSim 1 (1/5) (9/5) (19/20) (19/20) (1/4) [0, 100] 2).soc ≤ 9/5 :=
  ⟨by norm_num,
    spec_C1_soc_bounds 1 (1/5) (9/5) (19/20) (19/20) [0, 100] (by norm_num) (by norm_num)
      (by norm_num) (by norm_num) (by norm_num) (by norm_num) 2⟩

/-- C9 amended: `soc` starts at `min_state_of_charge`; at each step it is
unchanged when no action is emitted, strictly increases exactly when a charge
action is appended, and strictly decreases exactly when a discharge action is
appended (the full sequence is not monotone in general, see the
counterexample). -/
theorem spec_C9_amended (pmax min_s max_s eta_i eta_o : ℚ) (prices : List ℚ)
    (hp : 0 < pmax) (hei : 0 < eta_i) :
    (runSim pmax min_s max_s eta_i eta_o (1/4) prices 0).soc = min_s ∧
    ∀ k,
      ((runSim pmax min_s max_s eta_i eta_o (1/4) prices (k+1)).actions =
          (runSim pmax min_s max_s eta_i eta_o (1/4) prices k).actions ∧
        (runSim pmax min_s max_s eta_i eta_o (1/4) prices (k+1)).soc =
          (runSim pmax min_s max_s eta_i eta_o (1/4) prices k).soc) ∨
      (∃ a, (runSim pmax min_s max_s eta_i eta_o (1/4) prices (k+1)).actions =
          (runSim pmax min_s max_s eta_i eta_o (1/4) prices k).actions ++ [a] ∧
        a.action = "charge" ∧
        (runSim pmax min_s max_s eta_i eta_o (1/4) prices k).soc <
          (runSim pmax min_s max_s eta_i eta_o (1/4) prices (k+1)).soc) ∨
      (∃ a, (runSim pmax min_s max_s eta_i eta_o (1/4) prices (k+1)).actions =
          (runSim pmax min_s max_s eta_i eta_o (1/4) prices k).actions ++ [a] ∧
        a.action = "discharge" ∧
        (runSim pmax min_s max_s eta_i eta_o (1/4) prices (k+1)).soc <
          (runSim pmax min_s max_s eta_i eta_o (1/4) prices k).soc) := by
  refine ⟨rfl, ?_⟩
  intro k
  rw [runSim_succ]
  simp only [simStep]
  split_ifs with hc hd
  · right; left
    refine ⟨_, rfl, rfl, ?_⟩
    have hX : 0 < (max_s - (runSim pmax min_s max_s eta_i eta_o (1/4) prices k).soc) /
        eta_i / (1/4) :=
      div_pos (div_pos (sub_pos.2 hc.2) hei) (by norm_num)
    have hterm : 0 < min pmax ((max_s -
        (runSim pmax min_s max_s eta_i eta_o (1/4) prices k).soc) / eta_i / (1/4)) *
        (1/4) * eta_i :=
      mul_pos (mul_pos (lt_min hp hX) (by norm_num)) hei
    dsimp only
    linarith
  · right; right
    refine ⟨_, rfl, rfl, ?_⟩
    have hY : 0 < ((runSim pmax min_s max_s eta_i eta_o (1/4) prices k).soc - min_s) /
        (1/4) :=
      div_pos (sub_pos.2 hd.2) (by norm_num)
    have hterm : 0 < min pmax (((runSim pmax min_s max_s eta_i eta_o (1/4) prices k).soc -
        min_s) / (1/4)) * (1/4) :=
      mul_pos (lt_min hp hY) (by norm_num)
    dsimp only
    linarith
  · exact Or.inl ⟨rfl, rfl⟩

/-- Witness for the amended C9: the initial soc and the step classification at
the first step of a concrete run. -/
theorem spec_C9_witness :
    ((0:ℚ) < 1 ∧ (0:ℚ) < 19/20) ∧
      (runSim 1 (1/5) (9/5) (19/20) (19/20) (1/4) [0, 100] 0).soc = 1/5 ∧
      (((runSim 1 (1/5) (9/5) (19/20) (19/20) (1/4) [0, 100] 1).actions =
          (runSim 1 (1/5) (9/5) (19/20) (19/20) (1/4) [0, 100] 0).actions ∧
        (runSim 1 (1/5) (9/5) (19/20) (19/20) (1/4) [0, 100] 1).soc =
          (runSim 1 (1/5) (9/5) (19/20) (19/20) (1/4) [0, 100] 0).soc) ∨
      (∃ a, (runSim 1 (1/5) (9/5) (19/20) (19/20) (1/4) [0, 100] 1).actions =
          (runSim 1 (1/5) (9/5) (19/20) (19/20) (1/4) [0, 100] 0).actions ++ [a] ∧
        a.action = "charge" ∧
        (runSim 1 (1/5) (9/5) (19/20) (19/20) (1/4) [0, 100] 0).soc <
          (runSim 1 (1/5) (9/5) (19/20) (19/20) (1/4) [0, 100] 1).soc) ∨
      (∃ a, (runSim 1 (1/5) (9/5) (19/20) (19/20) (1/4) [0, 100] 1).actions =
          (runSim 1 (1/5) (9/5) (19/20) (19/20) (1/4) [0, 100] 0).actions ++ [a] ∧
        a.action = "discharge" ∧
        (runSim 1 (1/5) (9/5) (19/20) (19/20) (1/4) [0, 100] 1).soc <
          (runSim 1 (1/5) (9/5) (19/20) (19/20) (1/4) [0, 100] 0).soc)) :=
  ⟨by norm_num,
    (spec_C9_amended 1 (1/5) (9/5) (19/20) (19/20) [0, 100] (by norm_num) (by norm_num)).1,
    (spec_C9_amended 1 (1/5) (9/5) (19/20) (19/20) [0, 100] (by norm_num) (by norm_num)).2 0⟩

/-- Invariant of the simulation loop: while no action has been emitted, `soc`
is still `min_s`; and once actions exist, the first one is a charge. -/
lemma runSim_first_charge (pmax min_s max_s eta_i eta_o step_h : ℚ) (prices : List ℚ) :
    ∀ n, ((runSim pmax min_s max_s eta_i eta_o step_h prices n).actions = [] →
        (runSim pmax min_s max_s eta_i eta_o step_h prices n).soc = min_s) ∧
      ((runSim pmax min_s max_s eta_i eta_o step_h prices n).actions ≠ [] →
        (((runSim pmax min_s max_s eta_i eta_o step_h prices n).actions.headD
          default).action = "charge")) := by
  intro n
  induction n with
  | zero => exact ⟨fun _ => rfl, fun h => absurd rfl h⟩
  | succ m ih =>
    rw [runSim_succ]
    simp only [simStep]
    split_ifs with hc hd
    · constructor
      · intro h
        exact absurd h (by simp)
      · intro _
        cases hA : (runSim pmax min_s max_s eta_i eta_o step_h prices m).actions with
        | nil => simp
        | cons b l =>
          have hhead := ih.2 (by rw [hA]; simp)
          rw [hA] at hhead
          simpa using hhead
    · constructor
      · intro h
        exact absurd h (by simp)
      · intro _
        cases hA : (runSim pmax min_s max_s eta_i eta_o step_h prices m).actions with
        | nil =>
          exfalso
          have hsoc := ih.1 hA
          rw [hsoc] at hd
          exact lt_irrefl _ hd.2
        | cons b l =>
          have hhead := ih.2 (by rw [hA]; simp)
          rw [hA] at hhead
          simpa using hhead
    · exact ih

/-- C10: the loop never emits a discharge before a charge: `soc` stays at
`min_state_of_charge` until the first action, so the first emitted action (if
any) is a charge, and every discharge has a charge strictly before it. -/
theorem spec_C10_first_action_charge (pmax min_s max_s eta_i eta_o : ℚ)
    (prices : List ℚ) (n : ℕ)
    (hp : 0 < pmax) (hei : 0 < eta_i) (hei1 : eta_i ≤ 1)
    (heo : 0 < eta_o) (heo1 : eta_o ≤ 1) :
    ((runSim pmax min_s max_s eta_i eta_o (1/4) prices n).actions ≠ [] →
      (((runSim pmax min_s max_s eta_i eta_o (1/4) prices n).actions.headD
        default).action = "charge")) ∧
    (∀ i, i < (runSim pmax min_s max_s eta_i eta_o (1/4) prices n).actions.length →
      (((runSim pmax min_s max_s eta_i eta_o (1/4) prices n).actions.getD i
        default).action = "discharge") →
      0 < i ∧ (((runSim pmax min_s max_s eta_i eta_o (1/4) prices n).actions.getD 0
        default).action = "charge")) := by
  have H := runSim_first_charge pmax min_s max_s eta_i eta_o (1/4) prices n
  refine ⟨H.2, ?_⟩
  intro i hi hdis
  have hne : (runSim pmax min_s max_s eta_i eta_o (1/4) prices n).actions ≠ [] := by
    intro h
    rw [h] at hi
    simp at hi
  have hhead := H.2 hne
  have h0 : (runSim pmax min_s max_s eta_i eta_o (1/4) prices n).actions.getD 0 default =
      (runSim pmax min_s max_s eta_i eta_o (1/4) prices n).actions.headD default := by
    cases (runSim pmax min_s max_s eta_i eta_o (1/4) prices n).actions with
    | nil => rfl
    | cons a l => rfl
  refine ⟨?_, by rw [h0]; exact hhead⟩
  rcases Nat.eq_zero_or_pos i with rfl | hpos
  · rw [h0, hhead] at hdis
    exact absurd hdis (by decide)
  · exact hpos

/-- Witness for C10 on a concrete run that emits a charge then a discharge. -/
theorem spec_C10_witness :
    ((0:ℚ) < 1 ∧ (0:ℚ) < 19/20 ∧ (19:ℚ)/20 ≤ 1) ∧
      (runSim 1 (1/5) (9/5) (19/20) (19/20) (1/4) [0, 100] 2).actions ≠ [] ∧
      (((runSim 1 (1/5) (9/5) (19/20) (19/20) (1/4) [0, 100] 2).actions.headD
        default).action = "charge") := by
  have hne : (runSim 1 (1/5) (9/5) (19/20) (19/20) (1/4) [0, 100] 2).actions ≠ [] := by
    with_unfolding_all decide
  exact ⟨by norm_num, hne,
    (spec_C10_first_action_charge 1 (1/5) (9/5) (19/20) (19/20) [0, 100] 2 (by norm_num)
      (by norm_num) (by norm_num) (by norm_num) (by norm_num)).1 hne⟩

/-- Indexing into a constant list yields the constant. -/
lemma getD_replicate (n t : ℕ) (c : ℚ) (ht : t < n) : (List.replicate n c).getD t 0 = c := by
  induction n generalizing t with
  | zero => omega
  | succ m ih =>
    cases t with
    | zero => rfl
    | succ s =>
      rw [List.replicate_succ, List.getD_cons_succ]
      exact ih s (by omega)

/-- Folding `min` over a constant list starting from the constant. -/
lemma foldr_min_replicate (n : ℕ) (c : ℚ) : (List.replicate n c).foldr min c = c := by
  induction n with
  | zero => rfl
  | succ m ih => rw [List.replicate_succ, List.foldr_cons, ih, min_self]

/-- The minimum of a nonempty constant price array is the constant. -/
lemma listMin_replicate (n : ℕ) (c : ℚ) (hn : 0 < n) : listMin (List.replicate n c) = c := by
  cases n with
  | zero => omega
  | succ m =>
    unfold listMin
    rw [List.replicate_succ]
    simp only [List.headD_cons, List.foldr_cons]
    rw [foldr_min_replicate, min_self]

/-- On a flat (constant) price path every rank is 0: the numerator
`prices[t] - prices.min()` vanishes. -/
lemma rankOf_replicate (n t : ℕ) (c : ℚ) (ht : t < n) :
    rankOf (List.replicate n c) t = 0 := by
  unfold rankOf
  rw [getD_replicate n t c ht, listMin_replicate n c (by omega)]
  simp

/-- Every run produced by `groupRuns` is nonempty and a sublist of the action
list. -/
lemma groupRuns_mem : ∀ (l : List DispatchAction), ∀ run ∈ groupRuns l, run ≠ [] ∧ run.Sublist l
  | [], run, h => by rw [groupRuns] at h; exact absurd h (List.not_mem_nil run)
  | a :: rest, run, h => by
    rw [groupRuns] at h
    rcases List.mem_cons.mp h with h1 | h2
    · subst h1
      exact ⟨by simp, List.cons_sublist_cons.mpr (List.takeWhile_sublist _)⟩
    · have ih := groupRuns_mem (rest.dropWhile (fun b => b.action == a.action)) run h2
      exact ⟨ih.1, ih.2.trans ((List.dropWhile_sublist _).trans (List.sublist_cons_self _ _))⟩
termination_by l => l.length
decreasing_by
  simp only [List.length_cons]
  exact Nat.lt_succ_of_le (List.dropWhile_sublist _).length_le

/-- The default head of a nonempty list is a member. -/
lemma headD_mem (l : List DispatchAction) (d : DispatchAction) (h : l ≠ []) :
    l.headD d ∈ l := by
  cases l with
  | nil => exact absurd rfl h
  | cons a t => simp

/-- Every window's kind is the `action` of some emitted dispatch action. -/
lemma mkWindows_type_mem (tss : List ℤ) (acts : List DispatchAction) :
    ∀ w ∈ mkWindows tss acts, ∃ a ∈ acts, w.type = a.action := by
  intro w hw
  unfold mkWindows at hw
  rcases List.mem_map.mp hw with ⟨run, hrun, rfl⟩
  obtain ⟨hne, hsub⟩ := groupRuns_mem acts run hrun
  exact ⟨run.headD default, hsub.subset (headD_mem run default hne), rfl⟩

/-- On a flat price path with the default battery config, every emitted action
up to step `n` is a charge. -/
lemma runSim_flat_charge (n : ℕ) (c : ℚ) :
    ∀ k, k ≤ n →
      ∀ a ∈ (runSim 1 (1/5) (9/5) (19/20) (19/20) (1/4) (List.replicate n c) k).actions,
        a.action = "charge" := by
  intro k
  induction k with
  | zero =>
    intro _ a ha
    simp [runSim] at ha
  | succ m ih =>
    intro hk a ha
    rw [runSim_succ] at ha
    have hrank : rankOf (List.replicate n c) m = 0 := rankOf_replicate n m c (by omega)
    simp only [simStep, hrank] at ha
    split_ifs at ha with h1 h2
    · simp only [List.mem_append, List.mem_singleton] at ha
      rcases ha with h | h
      · exact ih (by omega) a h
      · rw [h]
    · exact absurd h2.1 (by norm_num)
    · exact ih (by omega) a ha

/-- On a flat price path with the default battery config, the loop emits an
action at step `k` exactly when there is still headroom (`soc < max_s`). -/
lemma runSim_flat_step_iff (n : ℕ) (c : ℚ) (k : ℕ) (hk : k < n) :
    ((runSim 1 (1/5) (9/5) (19/20) (19/20) (1/4) (List.replicate n c) (k+1)).actions ≠
        (runSim 1 (1/5) (9/5) (19/20) (19/20) (1/4) (List.replicate n c) k).actions) ↔
      (runSim 1 (1/5) (9/5) (19/20) (19/20) (1/4) (List.replicate n c) k).soc < 9/5 := by
  rw [runSim_succ]
  have hrank : rankOf (List.replicate n c) k = 0 := rankOf_replicate n k c hk
  simp only [simStep, hrank]
  split_ifs with h1 h2
  · constructor
    · intro _
      exact h1.2
    · intro _
      intro heq
      have := congrArg List.length heq
      simp at this
  · exact absurd h2.1 (by norm_num)
  · constructor
    · intro hne
      exact absurd rfl hne
    · intro hlt
      exact absurd ⟨by norm_num, hlt⟩ h1

/-- C6: on a forecast whose p50 path is flat (all equal to `c`) with the
default battery config, every rank is 0, every emitted action is a charge
(emitted exactly while `soc < max_s`, i.e. charging stops once soc reaches
`max_s`), and no window of the result is a discharge window. -/
theorem spec_C6_flat_prices (n : ℕ) (c : ℚ) (tss : List ℤ) :
    (∀ t, t < n → rankOf (List.replicate n c) t = 0) ∧
    (∀ a ∈ (runSim 1 (1/5) (9/5) (19/20) (19/20) (1/4) (List.replicate n c) n).actions,
      a.action = "charge") ∧
    (∀ w ∈ mkWindows tss
        (runSim 1 (1/5) (9/5) (19/20) (19/20) (1/4) (List.replicate n c) n).actions,
      w.type = "charge") ∧
    (∀ k, k < n →
      (((runSim 1 (1/5) (9/5) (19/20) (19/20) (1/4) (List.replicate n c) (k+1)).actions ≠
          (runSim 1 (1/5) (9/5) (19/20) (19/20) (1/4) (List.replicate n c) k).actions) ↔
        (runSim 1 (1/5) (9/5) (19/20) (19/20) (1/4) (List.replicate n c) k).soc < 9/5)) := by
  refine ⟨fun t ht => rankOf_replicate n t c ht,
    fun a ha => runSim_flat_charge n c n le_rfl a ha, ?_,
    fun k hk => runSim_flat_step_iff n c k hk⟩
  intro w hw
  obtain ⟨a, ha, heq⟩ := mkWindows_type_mem tss _ w hw
  rw [heq]
  exact runSim_flat_charge n c n le_rfl a ha

/-- Witness for C6 on a flat two-step path at price 50. -/
theorem spec_C6_witness :
    rankOf (List.replicate 2 (50:ℚ)) 0 = 0 ∧
      (((runSim 1 (1/5) (9/5) (19/20) (19/20) (1/4) (List.replicate 2 (50:ℚ)) 1).actions ≠
          (runSim 1 (1/5) (9/5) (19/20) (19/20) (1/4) (List.replicate 2 (50:ℚ)) 0).actions) ↔
        (runSim 1 (1/5) (9/5) (19/20) (19/20) (1/4) (List.replicate 2 (50:ℚ)) 0).soc < 9/5) :=
  ⟨(spec_C6_flat_prices 2 50 []).1 0 (by norm_num),
    (spec_C6_flat_prices 2 50 []).2.2.2 0 (by norm_num)⟩

/-- The zone history is sorted by timestamp (pandas `sort_values`). -/
lemma zoneHistory_sorted (history : List PriceObs) (zone : String) :
    List.Sorted (fun a b : PriceObs => a.ts ≤ b.ts) (zoneHistory history zone) :=
  List.sorted_insertionSort _ _

/-- On a sorted history with at least two rows the inferred step is positive:
the last delta is nonnegative, and a zero delta is replaced by the 900-second
default. -/
lemma inferredStep_pos (df : List PriceObs) (h2 : 2 ≤ df.length)
    (hs : List.Sorted (fun a b : PriceObs => a.ts ≤ b.ts) df) :
    0 < inferredStep df := by
  cases hrev : df.reverse with
  | nil =>
    have : df.length = 0 := by
      have := congrArg List.length hrev
      simpa using this
    omega
  | cons a rest =>
    cases rest with
    | nil =>
      have : df.length = 1 := by
        have := congrArg List.length hrev
        simpa using this
      omega
    | cons b t =>
      have hdf : df = t.reverse ++ [b, a] := by
        have h := congrArg List.reverse hrev
        rw [List.reverse_reverse] at h
        rw [h]
        simp
      have hba : b.ts ≤ a.ts := by
        rw [hdf] at hs
        have hp : List.Pairwise (fun a b : PriceObs => a.ts ≤ b.ts) (t.reverse ++ [b, a]) := hs
        have := (List.pairwise_append.mp hp).2.1
        exact (List.pairwise_cons.mp this).1 a (List.mem_singleton.mpr rfl)
      unfold inferredStep
      rw [hrev]
      simp only [List.headD_cons, List.drop_succ_cons, List.drop_zero]
      split_ifs with h
      · norm_num
      · omega

/-- The forecast series has exactly `horizon` points. -/
lemma forecastPoints_length (gen : ℕ → ℚ → ℕ → ℚ) (sqrtQ : ℚ → ℚ)
    (df : List PriceObs) (horizon : ℕ) :
    (forecastPoints gen sqrtQ df horizon).length = horizon := by
  simp [forecastPoints]

/-- The i-th forecast timestamp is `last_ts + (i+1) * step`. -/
lemma forecastPoints_ts (gen : ℕ → ℚ → ℕ → ℚ) (sqrtQ : ℚ → ℚ)
    (df : List PriceObs) (horizon : ℕ) (i : ℕ) (hi : i < horizon) :
    ((forecastPoints gen sqrtQ df horizon).getD i default).ts =
      lastTsOf df + ((i : ℤ) + 1) * inferredStep df := by
  unfold forecastPoints
  rw [List.getD_eq_getElem?_getD, List.getElem?_map, List.getElem?_range hi]
  simp

/-- C5: on a valid input (at least 32 zone rows, positive horizon) the
forecast succeeds, has exactly `horizon` points, and consecutive timestamps
are strictly increasing, differing by exactly the positive inferred step. -/
theorem spec_C5_length_timestamps (gen : ℕ → ℚ → ℕ → ℚ) (sqrtQ : ℚ → ℚ)
    (history : List PriceObs) (zone : String) (horizon : ℕ)
    (hhor : 0 < horizon)
    (h32 : 32 ≤ (history.filter (fun r => r.zone == zone)).length) :
    ∃ f, forecast_price gen sqrtQ history horizon zone = .ok f ∧
      f.points.length = horizon ∧
      0 < inferredStep (zoneHistory history zone) ∧
      (∀ i, i + 1 < horizon →
        (f.points.getD (i+1) default).ts =
          (f.points.getD i default).ts + inferredStep (zoneHistory history zone)) ∧
      (∀ i, i + 1 < horizon →
        (f.points.getD i default).ts < (f.points.getD (i+1) default).ts) := by
  have hlen : ¬ (zoneHistory history zone).length < 32 := by
    rw [zoneHistory_length]
    omega
  have h2 : 2 ≤ (zoneHistory history zone).length := by
    rw [zoneHistory_length]
    omega
  have hpos : 0 < inferredStep (zoneHistory history zone) :=
    inferredStep_pos _ h2 (zoneHistory_sorted history zone)
  have hdelta : ∀ i, i + 1 < horizon →
      ((forecastPoints gen sqrtQ (zoneHistory history zone) horizon).getD (i+1) default).ts =
        ((forecastPoints gen sqrtQ (zoneHistory history zone) horizon).getD i default).ts +
          inferredStep (zoneHistory history zone) := by
    intro i hi
    rw [forecastPoints_ts gen sqrtQ _ horizon (i+1) hi,
      forecastPoints_ts gen sqrtQ _ horizon i (by omega)]
    push_cast
    ring
  refine ⟨_, forecast_price_ok gen sqrtQ history horizon zone hlen,
    forecastPoints_length gen sqrtQ _ horizon, hpos, hdelta, ?_⟩
  intro i hi
  dsimp only
  rw [hdelta i hi]
  omega

/-- Witness for C5 on a concrete 32-row history at horizon 3. -/
theorem spec_C5_witness :
    ((0:ℕ) < 3 ∧ 32 ≤ (hist32.filter (fun r => r.zone == "Z1")).length) ∧
      (∃ f, forecast_price gen0 sqrt0 hist32 3 "Z1" = .ok f ∧
        f.points.length = 3 ∧
        0 < inferredStep (zoneHistory hist32 "Z1") ∧
        (∀ i, i + 1 < 3 →
          (f.points.getD (i+1) default).ts =
            (f.points.getD i default).ts + inferredStep (zoneHistory hist32 "Z1")) ∧
        (∀ i, i + 1 < 3 →
          (f.points.getD i default).ts < (f.points.getD (i+1) default).ts)) :=
  ⟨⟨by decide, by decide⟩,
    spec_C5_length_timestamps gen0 sqrt0 hist32 "Z1" 3 (by decide) (by decide)⟩

instance : IsTrans DispatchAction (fun x y => x.t < y.t) :=
  ⟨fun _ _ _ h h' => Nat.lt_trans h h'⟩

/-- Invariant of the simulation loop after `n` steps: every emitted action has
`t < n` and kind charge or discharge, and the time indices strictly increase
along the list. -/
lemma runSim_actions_invariant (pmax min_s max_s eta_i eta_o step_h : ℚ)
    (prices : List ℚ) :
    ∀ n, (∀ a ∈ (runSim pmax min_s max_s eta_i eta_o step_h prices n).actions,
        a.t < n ∧ (a.action = "charge" ∨ a.action = "discharge")) ∧
      List.Chain' (fun x y : DispatchAction => x.t < y.t)
        (runSim pmax min_s max_s eta_i eta_o step_h prices n).actions := by
  intro n
  induction n with
  | zero =>
    constructor
    · intro a ha
      simp [runSim] at ha
    · simp [runSim]
  | succ m ih =>
    rw [runSim_succ]
    simp only [simStep]
    split_ifs with h1 h2
    · constructor
      · intro a ha
        simp only [List.mem_append, List.mem_singleton] at ha
        rcases ha with h | h
        · obtain ⟨hlt, hk⟩ := ih.1 a h
          exact ⟨by omega, hk⟩
        · rw [h]
          refine ⟨?_, Or.inl rfl⟩
          show m < m + 1
          omega
      · refine List.Chain'.append ih.2 (List.chain'_singleton _) ?_
        intro x hx y hy
        simp only [List.head?_cons, Option.mem_def, Option.some.injEq] at hy
        have hxmem : x ∈ (runSim pmax min_s max_s eta_i eta_o step_h prices m).actions :=
          List.mem_of_getLast?_eq_some (Option.mem_def.mp hx)
        have := (ih.1 x hxmem).1
        rw [← hy]
        simpa using this
    · constructor
      · intro a ha
        simp only [List.mem_append, List.mem_singleton] at ha
        rcases ha with h | h
        · obtain ⟨hlt, hk⟩ := ih.1 a h
          exact ⟨by omega, hk⟩
        · rw [h]
          refine ⟨?_, Or.inr rfl⟩
          show m < m + 1
          omega
      · refine List.Chain'.append ih.2 (List.chain'_singleton _) ?_
        intro x hx y hy
        simp only [List.head?_cons, Option.mem_def, Option.some.injEq] at hy
        have hxmem : x ∈ (runSim pmax min_s max_s eta_i eta_o step_h prices m).actions :=
          List.mem_of_getLast?_eq_some (Option.mem_def.mp hx)
        have := (ih.1 x hxmem).1
        rw [← hy]
        simpa using this
    · constructor
      · intro a ha
        obtain ⟨hlt, hk⟩ := ih.1 a ha
        exact ⟨by omega, hk⟩
      · exact ih.2

/-- Along a strictly time-increasing run, the first action's time index is at
most the last one's. -/
lemma chain'_head_le_last : ∀ (l : List DispatchAction) (a : DispatchAction),
    List.Chain' (fun x y : DispatchAction => x.t < y.t) (a :: l) →
    a.t ≤ ((a :: l).getLastD default).t := by
  intro l
  induction l with
  | nil =>
    intro a _
    simp
  | cons b t ihl =>
    intro a h
    rw [List.chain'_cons] at h
    have hb := ihl b h.2
    have heq : ((a :: b :: t).getLastD default) = ((b :: t).getLastD default) := by
      rw [List.getLastD_eq_getLast?, List.getLastD_eq_getLast?, List.getLast?_cons_cons]
    rw [heq]
    exact le_trans (le_of_lt h.1) hb

/-- The default last element of a nonempty list is a member. -/
lemma getLastD_mem (l : List DispatchAction) (d : DispatchAction) (h : l ≠ []) :
    l.getLastD d ∈ l := by
  cases hgl : l.getLast? with
  | none => exact absurd (List.getLast?_eq_none_iff.mp hgl) h
  | some z =>
    rw [List.getLastD_eq_getLast?, hgl]
    exact List.mem_of_getLast?_eq_some hgl

/-- Inversion of a successful forecast: the zone history had at least 32 rows
and the result is the series built from it. -/
lemma forecast_price_ok_inv (gen : ℕ → ℚ → ℕ → ℚ) (sqrtQ : ℚ → ℚ)
    (history : List PriceObs) (horizon : ℕ) (zone : String) (f : ForecastResult)
    (hf : forecast_price gen sqrtQ history horizon zone = .ok f) :
    32 ≤ (zoneHistory history zone).length ∧
      f = { zone := zone,
            points := forecastPoints gen sqrtQ (zoneHistory history zone) horizon } := by
  by_cases hlen : (zoneHistory history zone).length < 32
  · rw [forecast_price] at hf
    simp only [hlen, if_pos] at hf
    exact absurd hf (by simp)
  · rw [forecast_price_ok gen sqrtQ history horizon zone hlen] at hf
    exact ⟨by omega, (Except.ok.inj hf).symm⟩

/-- The j-th entry of the forecast timestamp list. -/
lemma forecastPoints_map_ts_getD (gen : ℕ → ℚ → ℕ → ℚ) (sqrtQ : ℚ → ℚ)
    (df : List PriceObs) (horizon : ℕ) (j : ℕ) (hj : j < horizon) :
    ((forecastPoints gen sqrtQ df horizon).map (fun p => p.ts)).getD j 0 =
      lastTsOf df + ((j : ℤ) + 1) * inferredStep df := by
  rw [List.getD_eq_getElem?_getD, List.getElem?_map]
  unfold forecastPoints
  rw [List.getElem?_map, List.getElem?_range hj]
  simp

/-- C8: a successful optimize call returns at most 5 windows, and they are
exactly the first 5 of the collapsed window sequence in emission order; every
returned window is a charge or discharge window whose start timestamp is at
most its end timestamp. -/
theorem spec_C8_window_count (gen : ℕ → ℚ → ℕ → ℚ) (sqrtQ : ℚ → ℚ)
    (history : List PriceObs) (body : OptimizeBody) (res : OptimizeResult)
    (hres : optimize_storage gen sqrtQ history body = .ok res) :
    res.actions.length ≤ 5 ∧
    (∃ f, forecast_price gen sqrtQ history body.horizon body.zone = .ok f ∧
      res.actions = (optimizeWindows (1/4) body f).take 5) ∧
    (∀ w ∈ res.actions, (w.type = "charge" ∨ w.type = "discharge") ∧
      w.start ≤ w.endTs) := by
  unfold optimize_storage optimize_storage_withStep at hres
  cases hf : forecast_price gen sqrtQ history body.horizon body.zone with
  | error e =>
    rw [hf] at hres
    exact absurd hres (by simp)
  | ok f =>
    rw [hf] at hres
    have hres' : res =
        { expected_pnl_gbp := roundTo 2 ((optimizeFinal (1/4) body f).pnl / 1000),
          actions := (optimizeWindows (1/4) body f).take 5 } := (Except.ok.inj hres).symm
    subst hres'
    obtain ⟨h32, hfeq⟩ := forecast_price_ok_inv gen sqrtQ history body.horizon body.zone f hf
    refine ⟨?_, ⟨f, rfl, rfl⟩, ?_⟩
    · show ((optimizeWindows (1/4) body f).take 5).length ≤ 5
      rw [List.length_take]
      exact min_le_left _ _
    · intro w hw
      have hw' : w ∈ optimizeWindows (1/4) body f := (List.take_sublist 5 _).subset hw
      subst hfeq
      unfold optimizeWindows optimizeFinal mkWindows at hw'
      obtain ⟨run, hrun, hweq⟩ := List.mem_map.mp hw'
      obtain ⟨hrun_ne, hrun_sub⟩ := groupRuns_mem _ run hrun
      obtain ⟨a0, run', rfl⟩ : ∃ a0 run', run = a0 :: run' := by
        cases run with
        | nil => exact absurd rfl hrun_ne
        | cons a0 run' => exact ⟨a0, run', rfl⟩
      have hinv := runSim_actions_invariant body.power_mw
        (body.min_soc * body.capacity_mwh) (body.max_soc * body.capacity_mwh)
        body.eta_in body.eta_out (1/4)
        ((forecastPoints gen sqrtQ (zoneHistory history body.zone)
          body.horizon).map (fun p => p.p50))
        ((forecastPoints gen sqrtQ (zoneHistory history body.zone)
          body.horizon).map (fun p => p.p50)).length
      have hN : ((forecastPoints gen sqrtQ (zoneHistory history body.zone)
          body.horizon).map (fun p => p.p50)).length = body.horizon := by
        rw [List.length_map]
        exact forecastPoints_length gen sqrtQ _ body.horizon
      have hhead_mem := hrun_sub.subset (show a0 ∈ a0 :: run' by simp)
      have hlast_mem := hrun_sub.subset (getLastD_mem (a0 :: run') default (by simp))
      have hchain_run : List.Chain' (fun x y : DispatchAction => x.t < y.t) (a0 :: run') :=
        List.chain'_iff_pairwise.mpr
          ((List.chain'_iff_pairwise.mp hinv.2).sublist hrun_sub)
      have hht : a0.t ≤ ((a0 :: run').getLastD default).t :=
        chain'_head_le_last run' a0 hchain_run
      have ha0N : a0.t < body.horizon := by
        have := (hinv.1 a0 hhead_mem).1
        omega
      have halN : ((a0 :: run').getLastD default).t < body.horizon := by
        have := (hinv.1 _ hlast_mem).1
        omega
      have hstep : 0 < inferredStep (zoneHistory history body.zone) :=
        inferredStep_pos _ (by omega) (zoneHistory_sorted history body.zone)
      rw [← hweq]
      constructor
      · exact (hinv.1 a0 hhead_mem).2
      · show ((forecastPoints gen sqrtQ (zoneHistory history body.zone)
            body.horizon).map (fun p => p.ts)).getD ((a0 :: run').headD default).t 0 ≤
          ((forecastPoints gen sqrtQ (zoneHistory history body.zone)
            body.horizon).map (fun p => p.ts)).getD ((a0 :: run').getLastD default).t 0
        rw [show (a0 :: run').headD default = a0 from rfl,
          forecastPoints_map_ts_getD gen sqrtQ _ body.horizon a0.t ha0N,
          forecastPoints_map_ts_getD gen sqrtQ _ body.horizon _ halN]
        have hle : ((a0.t : ℤ) + 1) ≤ (((((a0 :: run').getLastD default).t : ℕ) : ℤ) + 1) := by
          exact_mod_cast Nat.succ_le_succ hht
        have := mul_le_mul_of_nonneg_right hle hstep.le
        omega

/-- Body with a one-step horizon used by the C8 witness. -/
def bodyC8 : OptimizeBody := { horizon := 1 }

/-- The concrete optimize result on `hist32` with `bodyC8`. -/
def resC8 : OptimizeResult :=
  { expected_pnl_gbp := -1/100,
    actions := [{ type := "charge", start := 900, endTs := 900, avg_mw := 1 }] }

/-- Witness for C8 on a concrete one-step optimize run. -/
theorem spec_C8_witness :
    optimize_storage gen0 sqrt0 hist32 bodyC8 = .ok resC8 ∧
      resC8.actions.length ≤ 5 ∧
      (∃ f, forecast_price gen0 sqrt0 hist32 bodyC8.horizon bodyC8.zone = .ok f ∧
        resC8.actions = (optimizeWindows (1/4) bodyC8 f).take 5) ∧
      (∀ w ∈ resC8.actions,
        (w.type = "charge" ∨ w.type = "discharge") ∧ w.start ≤ w.endTs) := by
  have hf : forecast_price gen0 sqrt0 hist32 bodyC8.horizon bodyC8.zone = .ok forecastF4 := by
    with_unfolding_all decide
  have hres : optimize_storage gen0 sqrt0 hist32 bodyC8 = .ok resC8 := by
    rw [optimize_storage, optimize_withStep_ok (1/4) gen0 sqrt0 hist32 bodyC8 forecastF4 hf]
    with_unfolding_all decide
  have H := spec_C8_window_count gen0 sqrt0 hist32 bodyC8 resC8 hres
  exact ⟨hres, H.1, H.2.1, H.2.2⟩
